import Mathlib

/-!
Verification development for the `disk-utils` write-ahead-log library.

The definitions below are a shallow embedding of the Rust sources:
files are byte lists (`List Nat`, each byte `< 256`), machine integers
are `Nat`/`Int` with explicit `% 2 ^ w` where the Rust code truncates,
and fallible operations return `Option`/`Except`.  A `none` produced by
an iterator step models a Rust panic (the source calls `.unwrap()` on
the intermediate results).

Sources embedded:
  * `src/wal/record.rs`    — `RecordType`, `Record::read`, `Record::write`
  * `src/wal/writer.rs`    — `Writer::append`
  * `src/wal/iterator.rs`  — `WalIterator` (block-paged, bidirectional)
  * `src/wal/mod.rs`       — `read_serializable`, `read_serializable_backwards`,
                             `split_bytes_into_records`
  * `src/wal/entries.rs`   — entry types and their byte codecs
  * `src/wal/undo_log.rs`  — the undo-log engine
  * `src/wal/redo_log.rs`  — `RedoLog::write` and the staged `Changes` table
-/

set_option maxRecDepth 10000

namespace DiskUtils

/-- Big-endian encoding of a `u16` value (the Rust side truncates with
`as u16`, so we encode `n % 2 ^ 16`). -/
def be16 (n : Nat) : List Nat := [n / 256 % 256, n % 256]

/-- Big-endian encoding of a `u32` value. -/
def be32 (n : Nat) : List Nat :=
  [n / 16777216 % 256, n / 65536 % 256, n / 256 % 256, n % 256]

/-- Big-endian encoding of a `u64` value. -/
def be64 (n : Nat) : List Nat :=
  [n / 72057594037927936 % 256, n / 281474976710656 % 256,
   n / 1099511627776 % 256, n / 4294967296 % 256,
   n / 16777216 % 256, n / 65536 % 256, n / 256 % 256, n % 256]

/-- Big-endian value of a byte list (used by the readers). -/
def beVal (l : List Nat) : Nat := l.foldl (fun a b => a * 256 + b) 0

/-- `RecordType` from `src/wal/record.rs`: the fragmentation tag of a
record.  The on-disk discriminants are 1..=5; byte 0 marks padding. -/
inductive RecordType where
  | Zero
  | Full
  | First
  | Middle
  | Last
deriving DecidableEq

/-- The `u8` discriminant of a record type (`RecordType as u8`). -/
def RecordType.toU8 : RecordType → Nat
  | .Zero => 1
  | .Full => 2
  | .First => 3
  | .Middle => 4
  | .Last => 5

/-- `RecordType::from_u8`: valid discriminants are `1..=5`. -/
def RecordType.fromU8 (i : Nat) : Option RecordType :=
  if i = 1 then some .Zero
  else if i = 2 then some .Full
  else if i = 3 then some .First
  else if i = 4 then some .Middle
  else if i = 5 then some .Last
  else none

/-- `BLOCK_SIZE` from `src/wal/record.rs`.  The source sets it to
`32000` (its doc comment says "32KB"), not the 32 KiB = 32768 the spec
states. -/
def BLOCK_SIZE : Nat := 32000

/-- `HEADER_SIZE` from `src/wal/record.rs`: 7 bytes of header. -/
def HEADER_SIZE : Nat := 7

/-- A WAL record (`Record` in `src/wal/record.rs`): `crc : u32`,
`size : u16`, a type tag and the payload bytes. -/
structure Record where
  crc : Nat
  size : Nat
  record_type : RecordType
  payload : List Nat
deriving DecidableEq

/-- `Record::read`: take a 7-byte header (type, crc BE32, size BE16),
then exactly `size` payload bytes.  Returns the record and the
remaining bytes of the stream; `none` models an `io::Error` (short
header, invalid type byte, or short payload).  Faithful to the source,
it does NOT verify the crc — the source carries a TODO comment instead
of a check. -/
def Record.read (bytes : List Nat) : Option (Record × List Nat) :=
  match bytes with
  | b0 :: b1 :: b2 :: b3 :: b4 :: b5 :: b6 :: rest =>
    match RecordType.fromU8 b0 with
    | none => none
    | some t =>
      let crc := ((b1 * 256 + b2) * 256 + b3) * 256 + b4
      let size := b5 * 256 + b6
      if rest.length < size then none
      else some (⟨crc, size, t, rest.take size⟩, rest.drop size)
  | _ => none

/-- `Record::write`: header (type byte, crc BE32, size BE16) followed by
the payload bytes. -/
def Record.write (r : Record) : List Nat :=
  r.record_type.toU8 :: (be32 r.crc ++ be16 r.size ++ r.payload)

/-- `Writer::append` from `src/wal/writer.rs`: if the payload does not
fit in the current block, zero-pad to the block boundary first, then
write the record.  Faithful to the source, the check uses
`record.payload.len()` alone — the 7-byte header is NOT counted. -/
def Writer.append (file : List Nat) (r : Record) : List Nat :=
  let fileLen := file.length
  let currBlockLen := fileLen - fileLen / BLOCK_SIZE * BLOCK_SIZE
  if currBlockLen + r.payload.length > BLOCK_SIZE then
    file ++ List.replicate (BLOCK_SIZE - currBlockLen) 0 ++ Record.write r
  else
    file ++ Record.write r

/-- Structural worker for `parseRecords`; the fuel is the byte count,
which suffices because every successful `Record::read` consumes at least
the 7 header bytes. -/
def parseRecordsAux : Nat → List Nat → List Record
  | 0, _ => []
  | fuel + 1, bytes =>
    match Record.read bytes with
    | none => []
    | some (r, rest) => r :: parseRecordsAux fuel rest

/-- The block loader's record loop: parse records from the start of the
buffer until a `Record::read` fails (`while let Ok(record) = ...`). -/
def parseRecords (bytes : List Nat) : List Record :=
  parseRecordsAux bytes.length bytes

/-- `check_forward_bounds` from `src/wal/iterator.rs`. -/
def checkForwardBounds (position fileLength : Int) : Bool :=
  position < 0 || position + (BLOCK_SIZE : Int) > fileLength

/-- `check_backward_bounds` from `src/wal/iterator.rs`. -/
def checkBackwardBounds (position fileLength : Int) : Bool :=
  position - (BLOCK_SIZE : Int) < 0 || position > fileLength

/-- `WalIterator::fetch_block`: seek to `position`, `read_exact` one full
`BLOCK_SIZE` buffer (so a short tail fails!), then greedily parse
records; an empty parse is the `EmptyBlock` error.  `none` models any
`io::Error`.  A negative position (the Rust `i64` is cast to `u64` for
the seek) also fails the read. -/
def fetchBlock (file : List Nat) (position : Int) : Option (List Record) :=
  if position < 0 then none
  else
    let p := position.toNat
    if file.length < p + BLOCK_SIZE then none
    else
      let block := parseRecords ((file.drop p).take BLOCK_SIZE)
      if block.length = 0 then none else some block

/-- The `WalIterator` state from `src/wal/iterator.rs`: file length, the
currently loaded block, a signed index into it, and the block position.
There is no direction tag in the source. -/
structure WalIterator where
  fileLen : Int
  block : Option (List Record) := none
  blockIndex : Option Int := none
  pos : Option Int := none
deriving DecidableEq

/-- `WalIterator::new`. -/
def WalIterator.new (file : List Nat) : WalIterator :=
  { fileLen := (file.length : Int) }

/-- `WalIterator::get_pos`: return the stored position or initialize it
to the given default. -/
def WalIterator.getPos (it : WalIterator) (default : Int) : Int × WalIterator :=
  match it.pos with
  | some p => (p, it)
  | none => (default, { it with pos := some default })

/-- `WalIterator::load_block`.  The result is `some (outOfBounds, it)`;
`none` models a propagated `fetch_block` error or a panic of the
`call_opt!(..).unwrap()` (block index present but no block loaded).
Note two source quirks kept here: both advancing branches use
`check_forward_bounds`, and `self.pos.take()` leaves `pos = None` when
the advance goes out of bounds. -/
def WalIterator.loadBlock (file : List Nat) (it : WalIterator) (position : Int)
    (forward : Bool) : Option (Bool × WalIterator) :=
  match it.blockIndex with
  | some blockIndex =>
    match it.block with
    | none => none
    | some blk =>
      if blockIndex < 0 then
        match it.pos with
        | some pos0 =>
          let pos := pos0 - (BLOCK_SIZE : Int)
          if checkForwardBounds pos it.fileLen then
            some (true, { it with pos := none })
          else
            match fetchBlock file pos with
            | none => none
            | some newBlk =>
              some (false,
                { it with block := some newBlk, pos := some pos,
                          blockIndex := some ((newBlk.length : Int) - 1) })
        | none => some (false, it)
      else if (blockIndex : Int) ≥ (blk.length : Int) then
        match it.pos with
        | some pos0 =>
          let pos := pos0 + (BLOCK_SIZE : Int)
          if checkForwardBounds pos it.fileLen then
            some (true, { it with pos := none })
          else
            match fetchBlock file pos with
            | none => none
            | some newBlk =>
              some (false,
                { it with block := some newBlk, pos := some pos,
                          blockIndex := some 0 })
        | none => some (false, it)
      else some (false, it)
  | none =>
    let oob := if forward then checkForwardBounds position it.fileLen
               else checkBackwardBounds position it.fileLen
    if oob then some (true, it)
    else
      match fetchBlock file position with
      | none => none
      | some blk =>
        some (false,
          { it with block := some blk,
                    blockIndex := some (if forward then 0 else (blk.length : Int) - 1) })

/-- `Iterator::next` for `WalIterator`: default position 0; on success
return the record at the current index and increment the index.  The
outer `none` models a panic (`load_block(..).unwrap()` or the
`get(..).unwrap()` on a bad index); `some (none, it)` is a graceful
`None`. -/
def WalIterator.next (file : List Nat) (it : WalIterator) :
    Option (Option Record × WalIterator) :=
  let pit := it.getPos 0
  match WalIterator.loadBlock file pit.2 pit.1 true with
  | none => none
  | some (true, it2) => some (none, it2)
  | some (false, it2) =>
    match it2.blockIndex with
    | none => some (none, it2)
    | some bi =>
      match it2.block with
      | none => none
      | some blk =>
        if bi < 0 then none
        else
          match blk.get? bi.toNat with
          | none => none
          | some r => some (some r, { it2 with blockIndex := some (bi + 1) })

/-- `DoubleEndedIterator::next_back`: default position
`file_len − BLOCK_SIZE`; on success return the record at the current
index and decrement the index. -/
def WalIterator.nextBack (file : List Nat) (it : WalIterator) :
    Option (Option Record × WalIterator) :=
  let pit := it.getPos (it.fileLen - (BLOCK_SIZE : Int))
  match WalIterator.loadBlock file pit.2 pit.1 false with
  | none => none
  | some (true, it2) => some (none, it2)
  | some (false, it2) =>
    match it2.blockIndex with
    | none => some (none, it2)
    | some bi =>
      match it2.block with
      | none => none
      | some blk =>
        if bi < 0 then none
        else
          match blk.get? bi.toNat with
          | none => none
          | some r => some (some r, { it2 with blockIndex := some (bi - 1) })

/-- Collect the records a forward traversal yields.  `fuel` bounds the
loop (every theorem below instantiates it with a value large enough for
the run at hand); the outer `none` models a panic inside `next`. -/
def collectForward (file : List Nat) : Nat → WalIterator → Option (List Record)
  | 0, _ => some []
  | fuel + 1, it =>
    match WalIterator.next file it with
    | none => none
    | some (none, _) => some []
    | some (some r, it2) => (collectForward file fuel it2).map (r :: ·)

/-- Collect the records a backward traversal yields. -/
def collectBackward (file : List Nat) : Nat → WalIterator → Option (List Record)
  | 0, _ => some []
  | fuel + 1, it =>
    match WalIterator.nextBack file it with
    | none => none
    | some (none, _) => some []
    | some (some r, it2) => (collectBackward file fuel it2).map (r :: ·)

/-- Structural worker for `chunksOf`; the fuel is the list length, which
suffices whenever the chunk size is positive. -/
def chunksOfAux (c : Nat) : Nat → List α → List (List α)
  | _, [] => []
  | 0, _ :: _ => []
  | fuel + 1, a :: l =>
    if c = 0 then []
    else (a :: l).take c :: chunksOfAux c fuel ((a :: l).drop c)

/-- Rust's `slice::chunks(c)`: pieces of at most `c` elements, the last
one possibly shorter.  `chunks(0)` panics in Rust; we return `[]` there
and every theorem assumes `1 ≤ c`. -/
def chunksOf (c : Nat) (l : List α) : List (List α) :=
  chunksOfAux c l.length l

/-- Replace the type tag of the first record
(`records.first_mut().unwrap().record_type = ..`). -/
def setFirstType (t : RecordType) : List Record → List Record
  | [] => []
  | r :: rs => { r with record_type := t } :: rs

/-- Replace the type tag of the last record. -/
def setLastType (t : RecordType) : List Record → List Record
  | [] => []
  | [r] => [{ r with record_type := t }]
  | r :: r2 :: rs => r :: setLastType t (r2 :: rs)

/-- `split_bytes_into_records` from `src/wal/mod.rs`: chunk the bytes,
wrap every chunk in a `Middle` record with `crc = 0` (the source has a
TODO instead of computing a checksum) and `size = len as u16`, then
retag: one chunk → `Full`; several → `First`/…/`Last`; none → a single
empty `Zero` record. -/
def split_bytes_into_records (bytes : List Nat) (max_record_size : Nat) : List Record :=
  let records := (chunksOf max_record_size bytes).map fun chunk =>
    ({ crc := 0, size := chunk.length % 65536, record_type := .Middle,
       payload := chunk } : Record)
  if records.length = 1 then setFirstType .Full records
  else if records.length > 1 then setLastType .Last (setFirstType .First records)
  else records ++ [⟨0, 0, .Zero, []⟩]

deriving instance DecidableEq for Except

/-- Errors of the entry reassembly readers. -/
inductive SerErr where
  | invalidTransfer
  | outOfRecords
  | deserializeFail
deriving DecidableEq

/-- `SerializableState` from `src/wal/mod.rs`. -/
inductive SerState where
  | sNone
  | sFirst
  | sMiddle
deriving DecidableEq

/-- The loop body of `read_serializable`, processing the record stream
the iterator would yield.  `des` is `S::deserialize` (`none` models its
`io::Error`); the result carries the unconsumed records. -/
def readSerializableGo (des : List Nat → Option α) :
    List Record → List Nat → SerState → Except SerErr (α × List Record)
  | [], _, _ => .error .outOfRecords
  | r :: rest, buf, st =>
    match r.record_type with
    | .Zero | .Full =>
      match des r.payload with
      | some v => .ok (v, rest)
      | none => .error .deserializeFail
    | .First =>
      if st ≠ .sNone then .error .invalidTransfer
      else readSerializableGo des rest (buf ++ r.payload) .sFirst
    | .Middle =>
      if st = .sFirst ∨ st = .sMiddle then
        readSerializableGo des rest (buf ++ r.payload) .sMiddle
      else .error .invalidTransfer
    | .Last =>
      if st ≠ .sMiddle then .error .invalidTransfer
      else
        match des (buf ++ r.payload) with
        | some v => .ok (v, rest)
        | none => .error .deserializeFail

/-- `read_serializable` from `src/wal/mod.rs` (forward reassembly). -/
def readSerializableL (des : List Nat → Option α) (records : List Record) :
    Except SerErr (α × List Record) :=
  readSerializableGo des records [] .sNone

/-- The loop body of `read_serializable_backwards`: fragments arrive in
reverse order, each payload is reversed into the buffer, and on the
terminal `First` fragment the whole buffer is reversed once more before
decoding. -/
def readSerializableBackGo (des : List Nat → Option α) :
    List Record → List Nat → SerState → Except SerErr (α × List Record)
  | [], _, _ => .error .outOfRecords
  | r :: rest, buf, st =>
    match r.record_type with
    | .Zero | .Full =>
      match des r.payload with
      | some v => .ok (v, rest)
      | none => .error .deserializeFail
    | .First =>
      if st ≠ .sMiddle then .error .invalidTransfer
      else
        match des ((buf ++ r.payload.reverse).reverse) with
        | some v => .ok (v, rest)
        | none => .error .deserializeFail
    | .Middle =>
      if st = .sFirst ∨ st = .sMiddle then
        readSerializableBackGo des rest (buf ++ r.payload.reverse) .sMiddle
      else .error .invalidTransfer
    | .Last =>
      if st ≠ .sNone then .error .invalidTransfer
      else readSerializableBackGo des rest (buf ++ r.payload.reverse) .sFirst

/-- `read_serializable_backwards` from `src/wal/mod.rs`. -/
def readSerializableBackwardsL (des : List Nat → Option α) (records : List Record) :
    Except SerErr (α × List Record) :=
  readSerializableBackGo des records [] .sNone

/-!  Entry types (`src/wal/entries.rs`).  The engines are generic over
`LogData`; we instantiate the tests' choice `Key = i32`, `Value =
String`, modelling non-negative keys as `Nat` (serialized big-endian
over 4 bytes, which agrees with `i32 BE` for non-negative values) and
string values as their byte lists (serialized as `u32 BE` length
followed by the bytes). -/

/-- `Transaction` from `src/wal/entries.rs`. -/
inductive Transaction where
  | start (tid : Nat)
  | commit (tid : Nat)
  | abort (tid : Nat)
deriving DecidableEq

/-- `Transaction::serialize`: tag byte 0/1/2, then the `u64 BE` tid. -/
def serializeTransaction : Transaction → List Nat
  | .start tid => 0 :: be64 tid
  | .commit tid => 1 :: be64 tid
  | .abort tid => 2 :: be64 tid

/-- `InsertEntry` as defined in `src/wal/entries.rs`: transaction id and
key.  (`src/wal/undo_log.rs` constructs it with an extra `value` field
that this — the type's only definition — does not have; we follow the
definition.) -/
structure InsertEntry where
  tid : Nat
  key : Nat
deriving DecidableEq

/-- `InsertEntry::serialize`: `u64 BE` tid then the key. -/
def serializeInsertEntry (e : InsertEntry) : List Nat :=
  be64 e.tid ++ be32 e.key

/-- `ChangeEntry` from `src/wal/entries.rs`: tid, key and a value (the
undo engine stores the OLD value in this field, the redo engine the new
one). -/
structure ChangeEntry where
  tid : Nat
  key : Nat
  value : List Nat
deriving DecidableEq

/-- `ChangeEntry::serialize`: tid, key, then the length-prefixed value. -/
def serializeChangeEntry (e : ChangeEntry) : List Nat :=
  be64 e.tid ++ be32 e.key ++ be32 e.value.length ++ e.value

/-- `UndoLogEntry` from `src/wal/undo_log.rs` (note: no checkpoint
case). -/
inductive UndoLogEntry where
  | insertE (e : InsertEntry)
  | changeE (e : ChangeEntry)
  | transE (t : Transaction)
deriving DecidableEq

/-- `UndoLogEntry::serialize`: tag byte 0/1/2, then the entry. -/
def serializeUndoLogEntry : UndoLogEntry → List Nat
  | .insertE e => 0 :: serializeInsertEntry e
  | .changeE e => 1 :: serializeChangeEntry e
  | .transE t => 2 :: serializeTransaction t

/-- Read `n` bytes exactly (`read_exact`): value and remaining bytes. -/
def takeExact (n : Nat) (l : List Nat) : Option (List Nat × List Nat) :=
  if l.length < n then none else some (l.take n, l.drop n)

/-- `u64::deserialize`. -/
def desU64 (l : List Nat) : Option (Nat × List Nat) :=
  (takeExact 8 l).map fun p => (beVal p.1, p.2)

/-- `i32::deserialize` (non-negative model). -/
def desI32 (l : List Nat) : Option (Nat × List Nat) :=
  (takeExact 4 l).map fun p => (beVal p.1, p.2)

/-- `String::deserialize`: `u32 BE` length, then that many bytes. -/
def desValue (l : List Nat) : Option (List Nat × List Nat) :=
  match takeExact 4 l with
  | none => none
  | some (lenBytes, rest) => (takeExact (beVal lenBytes) rest).map fun p => (p.1, p.2)

/-- `Transaction::deserialize`: type byte first, then the tid. -/
def deserializeTransaction (l : List Nat) : Option (Transaction × List Nat) :=
  match l with
  | t :: rest =>
    match desU64 rest with
    | none => none
    | some (tid, rest2) =>
      match t with
      | 0 => some (.start tid, rest2)
      | 1 => some (.commit tid, rest2)
      | 2 => some (.abort tid, rest2)
      | _ => none
  | [] => none

/-- `UndoLogEntry::deserialize`: tag byte then the entry body; trailing
bytes of the buffer are ignored by the caller. -/
def deserializeUndoLogEntry (l : List Nat) : Option UndoLogEntry :=
  match l with
  | 0 :: rest =>
    match desU64 rest with
    | none => none
    | some (tid, r1) =>
      match desI32 r1 with
      | none => none
      | some (key, _) => some (.insertE ⟨tid, key⟩)
  | 1 :: rest =>
    match desU64 rest with
    | none => none
    | some (tid, r1) =>
      match desI32 r1 with
      | none => none
      | some (key, r2) =>
        match desValue r2 with
        | none => none
        | some (v, _) => some (.changeE ⟨tid, key, v⟩)
  | 2 :: rest => (deserializeTransaction rest).map fun p => .transE p.1
  | _ => none

/-- `MAX_RECORD_SIZE` from `src/wal/undo_log.rs` / `src/wal/redo_log.rs`. -/
def MAX_RECORD_SIZE : Nat := 1024

/-- The external key-value store handed to an engine (the tests'
`MyStore`: a hash map plus a switch that makes `flush` fail). -/
structure KVStore where
  map : List (Nat × List Nat) := []
  flushErr : Bool := false
deriving DecidableEq

/-- `store.get(key)`. -/
def KVStore.get (st : KVStore) (k : Nat) : Option (List Nat) :=
  (st.map.find? fun p => p.1 == k).map Prod.snd

/-- `store.update(key, val)` (`HashMap::insert`). -/
def KVStore.update (st : KVStore) (k : Nat) (v : List Nat) : KVStore :=
  { st with map := (k, v) :: st.map.filter fun p => ¬ p.1 == k }

/-- `store.remove(key)`. -/
def KVStore.remove (st : KVStore) (k : Nat) : KVStore :=
  { st with map := st.map.filter fun p => ¬ p.1 == k }

/-- The in-memory state of an `UndoLog` (`src/wal/undo_log.rs`): the log
file's bytes, the staged `mem_log` queue, the `tid` counter and the
store.  The source has no active-transaction set and no checkpoint
state. -/
structure UndoState where
  file : List Nat
  memLog : List UndoLogEntry := []
  tid : Nat := 0
  store : KVStore
deriving DecidableEq

/-- Append one entry to the file: serialize, split into records of at
most `MAX_RECORD_SIZE`, append each via `Writer::append` (one loop turn
of `UndoLog::flush`). -/
def appendEntry (file : List Nat) (e : UndoLogEntry) : List Nat :=
  (split_bytes_into_records (serializeUndoLogEntry e) MAX_RECORD_SIZE).foldl
    Writer.append file

/-- `UndoLog::flush`: write every staged entry to the file, clear the
queue. -/
def undoFlush (s : UndoState) : UndoState :=
  { s with file := s.memLog.foldl appendEntry s.file, memLog := [] }

/-- `UndoLog::start`: stage `Start(tid + 1)`.  Faithful to the source,
the counter itself is NOT incremented here (only `commit`/`abort`
increment it). -/
def undoStart (s : UndoState) : UndoState :=
  { s with memLog := s.memLog ++ [.transE (.start (s.tid + 1))] }

/-- `UndoLog::write`: look the key up in the store; stage
`ChangeEntry {tid+1, key, old}` if present, `InsertEntry {tid+1, key}`
otherwise (the source also passes `val` into `InsertEntry`, a stale
field its definition in `entries.rs` does not have); then update the
store.  There is no transaction-id parameter and no active check. -/
def undoWrite (s : UndoState) (k : Nat) (v : List Nat) : UndoState :=
  let entry : UndoLogEntry :=
    match s.store.get k with
    | some old => .changeE ⟨s.tid + 1, k, old⟩
    | none => .insertE ⟨s.tid + 1, k⟩
  { s with store := s.store.update k v, memLog := s.memLog ++ [entry] }

/-- `UndoLog::commit`: flush the staged entries, flush the store (this
can fail), then stage `Commit(tid + 1)`, flush again and increment
`tid`.  The `Bool` is `false` when the store flush failed (the
`Err` return); the state then reflects the already-performed log flush. -/
def undoCommit (s : UndoState) : Bool × UndoState :=
  let s1 := undoFlush s
  if s1.store.flushErr then (false, s1)
  else
    let s2 := { s1 with memLog := s1.memLog ++ [.transE (.commit (s1.tid + 1))] }
    let s3 := undoFlush s2
    (true, { s3 with tid := s3.tid + 1 })

/-- `UndoLog::abort`: stage `Abort(tid + 1)`, flush, increment `tid`. -/
def undoAbort (s : UndoState) : UndoState :=
  let s2 := { s with memLog := s.memLog ++ [.transE (.abort (s.tid + 1))] }
  let s3 := undoFlush s2
  { s3 with tid := s3.tid + 1 }

/-- Insert a tid into a set modelled as a duplicate-free list (the
source uses `HashSet`; we keep insertion order so iteration is
deterministic). -/
def insertTid (l : List Nat) (t : Nat) : List Nat :=
  if l.contains t then l else l ++ [t]

/-- One backward pass of `UndoLog::recover`: repeatedly read an entry
from the record stream; `Commit`/`Abort` go to `finished`; an
`InsertEntry`/`ChangeEntry` of an unfinished transaction is undone
against the store (remove / re-apply the old value) and its tid added
to `unfinished`; `Start` entries are ignored. -/
def undoRecoverLoop (fuel : Nat) (records : List Record)
    (finished unfinished : List Nat) (store : KVStore) :
    List Nat × List Nat × KVStore :=
  match fuel with
  | 0 => (finished, unfinished, store)
  | fuel + 1 =>
    match readSerializableBackwardsL deserializeUndoLogEntry records with
    | .error _ => (finished, unfinished, store)
    | .ok (e, rest) =>
      match e with
      | .transE (.commit id) =>
        undoRecoverLoop fuel rest (insertTid finished id) unfinished store
      | .transE (.abort id) =>
        undoRecoverLoop fuel rest (insertTid finished id) unfinished store
      | .insertE ie =>
        if finished.contains ie.tid then
          undoRecoverLoop fuel rest finished unfinished store
        else
          undoRecoverLoop fuel rest finished (insertTid unfinished ie.tid)
            (store.remove ie.key)
      | .changeE ce =>
        if finished.contains ce.tid then
          undoRecoverLoop fuel rest finished unfinished store
        else
          undoRecoverLoop fuel rest finished (insertTid unfinished ce.tid)
            (store.update ce.key ce.value)
      | .transE (.start _) =>
        undoRecoverLoop fuel rest finished unfinished store

/-- `UndoLog::recover`: walk the whole file backward undoing unfinished
transactions, stage an `Abort` for each unfinished tid, set `tid` to the
largest unfinished tid (if any), then flush the log.  Faithful to the
source, the store is NOT flushed and `finished` tids do not feed the
counter.  `none` models a panic inside the iterator. -/
def undoRecover (s : UndoState) : Option UndoState :=
  match collectBackward s.file (s.file.length + 1) (WalIterator.new s.file) with
  | none => none
  | some stream =>
    let res := undoRecoverLoop (stream.length + 1) stream [] [] s.store
    let unfinished := res.2.1
    let s1 :=
      { s with
          store := res.2.2,
          memLog := s.memLog ++ unfinished.map fun t => .transE (.abort t),
          tid := if unfinished = [] then s.tid else unfinished.foldl max 0 }
    some (undoFlush s1)

/-- `UndoLog::new`: open the file, read the last entry backward; if it
is a `Commit`/`Abort` adopt its tid, if it is any other entry run
recovery, and if nothing could be read (empty or unreadable log) do
neither. -/
def undoNew (file : List Nat) (store : KVStore) : Option UndoState :=
  match collectBackward file (file.length + 1) (WalIterator.new file) with
  | none => none
  | some stream =>
    let tidRecover : Nat × Bool :=
      match readSerializableBackwardsL deserializeUndoLogEntry stream with
      | .ok (.transE (.commit id), _) => (id, false)
      | .ok (.transE (.abort id), _) => (id, false)
      | .ok (_, _) => (0, true)
      | .error _ => (0, false)
    let s : UndoState := { file := file, memLog := [], tid := tidRecover.1,
                           store := store }
    if tidRecover.2 then undoRecover s else some s

/-- `Checkpoint` from `src/wal/entries.rs`. -/
inductive Checkpoint where
  | begin_ (tids : List Nat)
  | end_
deriving DecidableEq

/-- `SingleLogEntry` from `src/wal/entries.rs` (used by the redo log). -/
inductive SingleLogEntry where
  | insertE (e : InsertEntry)
  | changeE (e : ChangeEntry)
  | transE (t : Transaction)
  | checkpointE (c : Checkpoint)
deriving DecidableEq

/-- The in-memory state of a `RedoLog` (`src/wal/redo_log.rs`): staged
entry queue, tid counter, the `Changes` table (an ordered list of staged
writes plus the set of committed tids) and the active-tid set. -/
structure RedoState where
  memLog : List SingleLogEntry := []
  lastTid : Nat := 0
  transactionChanges : List (Nat × Nat × List Nat) := []
  committedTids : List Nat := []
  activeTids : List Nat := []
  store : KVStore
deriving DecidableEq

/-- `RedoLog::write`: only when `tid` is active, stage
`ChangeEntry {tid, key, val}` (the NEW value), record the write in the
`Changes` table and update the store; otherwise do nothing at all. -/
def redoWrite (s : RedoState) (tid k : Nat) (v : List Nat) : RedoState :=
  if s.activeTids.contains tid then
    { s with transactionChanges := s.transactionChanges ++ [(tid, k, v)],
             store := s.store.update k v,
             memLog := s.memLog ++ [.changeE ⟨tid, k, v⟩] }
  else s

/-- One bit-step of the reflected CRC32-IEEE division (polynomial
`0xEDB88320`).  Modelled from the spec: the source delegates to the
external `crc` crate, which is not part of this repository. -/
def crc32Step (c : Nat) : Nat :=
  if c % 2 = 1 then (c / 2) ^^^ 0xEDB88320 else c / 2

/-- Fold one byte into a CRC32-IEEE accumulator. -/
def crc32Byte (c b : Nat) : Nat := crc32Step^[8] (c ^^^ b)

/-- CRC32-IEEE of a byte list (init and xor-out `0xFFFFFFFF`).
Modelled from the spec («CRC32-IEEE of `payload`»). -/
def crc32 (l : List Nat) : Nat :=
  (l.foldl crc32Byte 0xFFFFFFFF) ^^^ 0xFFFFFFFF

/-!  Concrete data used by the claim theorems. -/

/-- The byte string "Hello". -/
def hello : List Nat := [72, 101, 108, 108, 111]

/-- The byte string "World2". -/
def world2 : List Nat := [87, 111, 114, 108, 100, 50]

/-- The serialized bytes of the entry `ChangeEntry {tid: 123, key: 20,
old: "Hello world"}` used by the repository's `test_read_serializable`. -/
def c3bytes : List Nat :=
  serializeChangeEntry ⟨123, 20, [72, 101, 108, 108, 111, 32, 119, 111, 114, 108, 100]⟩

/-- The log file produced by splitting `c3bytes` with chunk size 1 and
appending every record to an empty file (216 bytes). -/
def c3file : List Nat :=
  (split_bytes_into_records c3bytes 1).foldl Writer.append []

/-- A freshly opened undo log over an empty file and empty store. -/
def c4s0 : UndoState := { file := [], store := {} }

/-- State after `start; write(20, "Hello"); commit` (transaction 1,
committed cleanly). -/
def c4s3 : UndoState := (undoCommit (undoWrite (undoStart c4s0) 20 hello)).2

/-- State after additionally `start; write(20, "World2");
write(30, "Hello")` with the store's flush rigged to fail. -/
def c4s6 : UndoState :=
  undoWrite
    (undoWrite (undoStart { c4s3 with store := { c4s3.store with flushErr := true } })
      20 world2)
    30 hello

/-- The crashed state: `commit` of transaction 2 failed at the store
flush. -/
def c4s7 : UndoState := (undoCommit c4s6).2

/-- A fresh undo log whose store flush is rigged to fail. -/
def c6s0 : UndoState := { file := [], store := { flushErr := true } }

/-- State after `start; write(20, "Hello")` on `c6s0`. -/
def c6s2 : UndoState := undoWrite (undoStart c6s0) 20 hello

/-- A witness state with a staged entry and a failing store flush. -/
def c6wA : UndoState :=
  { file := [], memLog := [.transE (.start 1)], store := { flushErr := true } }

/-- A witness state with a staged entry and a working store flush. -/
def c6wB : UndoState := { file := [], memLog := [.transE (.start 1)], store := {} }

/-- A fresh undo engine state (no transaction ever started). -/
def c7undo0 : UndoState := { file := [], store := {} }

/-- A redo engine state with no active transactions. -/
def c7redoA : RedoState := { store := {} }

/-- A redo engine state in which transaction 5 is active. -/
def c7redoB : RedoState := { activeTids := [5], store := {} }

/-- A 16-byte `Full` record (payload: nine 7-bytes). -/
def rec8a : Record := ⟨0, 9, .Full, List.replicate 9 7⟩

/-- A 16-byte `Full` record (payload: nine 8-bytes). -/
def rec8b : Record := ⟨0, 9, .Full, List.replicate 9 8⟩

/-- A file of exactly one 32000-byte block: two records followed by
zero padding. -/
def file8 : List Nat :=
  Record.write rec8a ++ (Record.write rec8b ++ List.replicate 31968 0)

/-- A small record used by the C8 witness. -/
def rec8w1 : Record := ⟨0, 1, .Full, [1]⟩

/-- A second small record used by the C8 witness. -/
def rec8w2 : Record := ⟨0, 1, .Full, [2]⟩

/-- An iterator state with a loaded two-record block, cursor at 0. -/
def it8w : WalIterator := ⟨100, some [rec8w1, rec8w2], some 0, some 0⟩

end DiskUtils

namespace DiskUtils

/-!  Helper lemmas about the record codec and the block parser. -/

theorem RecordType.fromU8_toU8 (t : RecordType) :
    RecordType.fromU8 t.toU8 = some t := by
  cases t <;> rfl

theorem Record.read_write (r : Record) (rest : List Nat)
    (h1 : r.crc < 4294967296) (h2 : r.size < 65536)
    (h3 : r.payload.length = r.size) :
    Record.read (Record.write r ++ rest) = some (r, rest) := by
  obtain ⟨crc, size, t, payload⟩ := r
  simp only at h1 h2 h3
  have hs : (size / 256 % 256) * 256 + size % 256 = size := by omega
  have hc : ((crc / 16777216 % 256 * 256 + crc / 65536 % 256) * 256 +
      crc / 256 % 256) * 256 + crc % 256 = crc := by omega
  have hlen : ¬ (payload ++ rest).length < size := by
    simp only [List.length_append]; omega
  simp only [Record.write, be32, be16, List.cons_append, List.nil_append,
    List.append_assoc, Record.read, RecordType.fromU8_toU8, hs, hc, hlen,
    if_false]
  simp only [List.take_left' h3, List.drop_left' h3]

theorem Record.read_replicate_zero (n : Nat) :
    Record.read (List.replicate n 0) = none := by
  match n with
  | 0 => rfl
  | 1 => rfl
  | 2 => rfl
  | 3 => rfl
  | 4 => rfl
  | 5 => rfl
  | 6 => rfl
  | k + 7 =>
    simp only [List.replicate_succ]
    rfl

theorem Record.read_rest_length {bytes : List Nat} {r : Record} {rest : List Nat}
    (h : Record.read bytes = some (r, rest)) : rest.length < bytes.length := by
  unfold Record.read at h
  match bytes with
  | b0 :: b1 :: b2 :: b3 :: b4 :: b5 :: b6 :: tl =>
    simp only at h
    cases hf : RecordType.fromU8 b0 with
    | none => rw [hf] at h; exact absurd h (by simp)
    | some t =>
      rw [hf] at h
      simp only at h
      split at h
      · exact absurd h (by simp)
      · have := congrArg Prod.snd (Option.some.injEq _ _ ▸ h :
          (⟨_, _, t, tl.take _⟩, tl.drop (b5 * 256 + b6)) = (r, rest))
        simp only at this
        subst this
        simp only [List.length_drop, List.length_cons]
        omega

theorem parseRecordsAux_fuel_irrel :
    ∀ (f1 f2 : Nat) (bytes : List Nat), bytes.length ≤ f1 → bytes.length ≤ f2 →
      parseRecordsAux f1 bytes = parseRecordsAux f2 bytes := by
  intro f1
  induction f1 with
  | zero =>
    intro f2 bytes hb1 _
    have hb : bytes = [] := List.length_eq_zero.mp (Nat.le_zero.mp hb1)
    subst hb
    cases f2 <;> rfl
  | succ n ih =>
    intro f2 bytes hb1 hb2
    cases f2 with
    | zero =>
      have hb : bytes = [] := List.length_eq_zero.mp (Nat.le_zero.mp hb2)
      subst hb
      rfl
    | succ m =>
      simp only [parseRecordsAux]
      cases h : Record.read bytes with
      | none => rfl
      | some pr =>
        obtain ⟨r, rest⟩ := pr
        have hlt := Record.read_rest_length h
        show r :: parseRecordsAux n rest = r :: parseRecordsAux m rest
        exact congrArg (r :: ·) (ih m rest (by omega) (by omega))

theorem parseRecords_eq_nil {bytes : List Nat} (h : Record.read bytes = none) :
    parseRecords bytes = [] := by
  unfold parseRecords
  cases bytes with
  | nil => rfl
  | cons a t => simp only [List.length_cons, parseRecordsAux, h]

theorem parseRecords_eq_cons {bytes : List Nat} {r : Record} {rest : List Nat}
    (h : Record.read bytes = some (r, rest)) :
    parseRecords bytes = r :: parseRecords rest := by
  have hlt := Record.read_rest_length h
  unfold parseRecords
  cases bytes with
  | nil => rw [show Record.read [] = none from rfl] at h; exact absurd h (by simp)
  | cons a t =>
    simp only [List.length_cons] at hlt
    simp only [List.length_cons, parseRecordsAux, h]
    rw [parseRecordsAux_fuel_irrel t.length rest.length rest (by omega) le_rfl]

theorem Writer.append_eq (file : List Nat) (r : Record) :
    Writer.append file r =
      if file.length % BLOCK_SIZE + r.payload.length > BLOCK_SIZE then
        file ++ List.replicate (BLOCK_SIZE - file.length % BLOCK_SIZE) 0 ++
          Record.write r
      else file ++ Record.write r := by
  have h : file.length - file.length / BLOCK_SIZE * BLOCK_SIZE =
      file.length % BLOCK_SIZE := by
    rw [Nat.mod_def, Nat.mul_comm]
  rw [Writer.append, h]

/-!  Claim theorems. -/

/-- C1: the claim states forward iteration yields exactly the appended
records even when the final block is short.  The code drops every record
of a short final block: `check_forward_bounds` rejects any block whose
end would exceed the file length and `fetch_block` `read_exact`s a full
32000-byte buffer, so an 8-byte file produced by appending one record to
an empty file iterates to NO records (the repository's own
`test_small_file` in `tests/test_iterator.rs` asserts it yields that
record). -/
theorem c1_short_file_drops_records :
    (Writer.append [] ⟨123456789, 1, .Full, [0]⟩).length = 8 ∧
    collectForward (Writer.append [] ⟨123456789, 1, .Full, [0]⟩) 3
      (WalIterator.new (Writer.append [] ⟨123456789, 1, .Full, [0]⟩)) =
      some [] ∧
    ([] : List Record) ≠ [⟨123456789, 1, .Full, [0]⟩] := by decide

/-- C2: the claim states `Record::read` recomputes the payload CRC32 and
fails with `CorruptRecord` on a mismatch.  The code never computes any
checksum (`src/wal/record.rs` carries a TODO instead): reading the bytes
of a written record whose payload byte was flipped succeeds and returns
the altered payload together with the stale stored crc, even though the
recomputed CRC32 differs. -/
theorem c2_crc_not_checked :
    Record.read ((Record.write ⟨crc32 [1], 1, .Full, [1]⟩).set 7 2) =
      some (⟨crc32 [1], 1, .Full, [2]⟩, []) ∧
    crc32 [2] ≠ crc32 [1] := by decide

/-- C3: the claim states the split/write/read round-trip returns every
entry via both readers, and that a `First` record directly followed by a
`Last` is accepted.  On the code the round-trip already fails at the
iterator — the 216-byte file of the repository's own
`test_read_serializable` yields no records at all, so both readers
return the `OutOfRecords` error — and, independently, both reassembly
state machines reject `First` directly followed by `Last` (forward) and
`Last` directly followed by `First` (backward) with `InvalidTransfer`,
although `split_bytes_into_records` produces exactly that shape for
two-chunk entries. -/
theorem c3_roundtrip_fails :
    collectForward c3file 3 (WalIterator.new c3file) = some [] ∧
    readSerializableL (fun l => some l) ([] : List Record) =
      .error .outOfRecords ∧
    readSerializableL (fun l => some l)
      [⟨0, 1, .First, [7]⟩, ⟨0, 1, .Last, [8]⟩] = .error .invalidTransfer ∧
    readSerializableBackwardsL (fun l => some l)
      [⟨0, 1, .Last, [8]⟩, ⟨0, 1, .First, [7]⟩] = .error .invalidTransfer := by
  decide

/-- C4: the claim states reopening after a crashed commit runs a
backward recovery pass that restores pre-images, flushes the store,
appends `Abort(tid)` and sets `last_tid` to the maximum seen tid.  On
the code, reopening the crashed log of the spec's own S2 scenario does
none of this: the backward iterator yields no records for a log smaller
than one 32000-byte block, so `UndoLog::new` finds no last entry, never
triggers `recover`, leaves `tid = 0`, appends nothing, and the store
still holds the failed transaction's post-images (`test_recover` in
`src/wal/undo_log.rs` asserts the opposite). -/
theorem c4_recovery_not_run :
    (undoCommit c4s6).1 = false ∧
    undoNew c4s7.file c4s7.store =
      some { file := c4s7.file, memLog := [], tid := 0, store := c4s7.store } ∧
    c4s7.store.get 20 = some world2 ∧
    c4s7.store.get 30 = some hello := by decide

/-- C5 (counterexample): the claim computes the padding condition from
`used + total_record_size` with `BLOCK_SIZE = 32768`.  With a 32760-byte
file and a 5-byte payload the claim demands padding
(`32760 + 7 + 5 > 32768`), yet the code — whose block size is 32000 and
whose check counts the payload only — appends the record with no padding
at all. -/
theorem c5_padding_counterexample :
    BLOCK_SIZE = 32000 ∧
    32760 % 32768 + (HEADER_SIZE + 5) > 32768 ∧
    Writer.append (List.replicate 32760 0) ⟨0, 5, .Full, [1, 2, 3, 4, 5]⟩ =
      List.replicate 32760 0 ++ Record.write ⟨0, 5, .Full, [1, 2, 3, 4, 5]⟩ := by
  refine ⟨rfl, by decide, ?_⟩
  rw [Writer.append_eq, List.length_replicate, if_neg (by decide)]

/-- C5 (amended): `Writer::append` zero-pads to the block boundary
exactly when `used + payload_len > BLOCK_SIZE`, where
`used = L mod BLOCK_SIZE` and `BLOCK_SIZE = 32000`; the 7-byte header is
not counted in the check. -/
theorem c5_append_pads_on_payload_overflow (file : List Nat) (r : Record) :
    Writer.append file r =
      (if file.length % BLOCK_SIZE + r.payload.length > BLOCK_SIZE then
        file ++ List.replicate (BLOCK_SIZE - file.length % BLOCK_SIZE) 0 ++
          Record.write r
      else file ++ Record.write r) ∧
    BLOCK_SIZE = 32000 :=
  ⟨Writer.append_eq file r, rfl⟩

/-- C6 (counterexample): the claim's final consequence is that after a
commit fails at the store flush, "a later recovery treats the
transaction as unfinished and aborts it".  On the code, reopening the
crashed log (here: `start; write(20, "Hello")`, then a commit whose
store flush fails) changes nothing: the backward iterator yields no
records for a sub-block file, recovery never runs, no `Abort` is
appended and `tid` stays 0. -/
theorem c6_no_abort_after_failed_commit :
    (undoCommit c6s2).1 = false ∧
    undoNew (undoCommit c6s2).2.file (undoCommit c6s2).2.store =
      some { file := (undoCommit c6s2).2.file, memLog := [], tid := 0,
             store := (undoCommit c6s2).2.store } := by decide

/-- C6 (amended): `UndoLog::commit` first flushes the staged entries to
the log, then flushes the store, and only on success stages and flushes
the `Commit` record; when the store flush fails the error propagates,
`tid` is unchanged and the file holds exactly the old contents plus the
staged entries — no `Commit` record reaches the log.  (The further
consequence the claim draws — that a later reopen aborts the
transaction — does not hold: reopening a sub-block log runs no
recovery.) -/
theorem c6_commit_ordering (s : UndoState) :
    (s.store.flushErr = true →
      (undoCommit s).1 = false ∧
      (undoCommit s).2.file = s.memLog.foldl appendEntry s.file ∧
      (undoCommit s).2.tid = s.tid ∧
      (undoCommit s).2.memLog = []) ∧
    (s.store.flushErr = false →
      (undoCommit s).1 = true ∧
      (undoCommit s).2.file =
        appendEntry (s.memLog.foldl appendEntry s.file)
          (.transE (.commit (s.tid + 1))) ∧
      (undoCommit s).2.tid = s.tid + 1) := by
  constructor
  · intro h
    simp [undoCommit, undoFlush, h]
  · intro h
    simp [undoCommit, undoFlush, h]

/-- C6 witness: the amended statement evaluated at a state with a
failing store flush and at one with a working flush. -/
theorem c6_commit_ordering_witness :
    ((undoCommit c6wA).1 = false ∧
      (undoCommit c6wA).2.file = c6wA.memLog.foldl appendEntry c6wA.file ∧
      (undoCommit c6wA).2.tid = c6wA.tid ∧
      (undoCommit c6wA).2.memLog = []) ∧
    ((undoCommit c6wB).1 = true ∧
      (undoCommit c6wB).2.file =
        appendEntry (c6wB.memLog.foldl appendEntry c6wB.file)
          (.transE (.commit (c6wB.tid + 1))) ∧
      (undoCommit c6wB).2.tid = c6wB.tid + 1) :=
  ⟨(c6_commit_ordering c6wA).1 rfl, (c6_commit_ordering c6wB).2 rfl⟩

/-- C7 (counterexample): the claim states that for BOTH engines a write
for a tid outside the active set is a no-op.  The undo engine's `write`
does not even take a transaction id and keeps no active set: on a fresh
engine with no transaction ever started it stages an
`InsertEntry {tid: 1, key}` and updates the store. -/
theorem c7_inactive_write_not_noop :
    (undoWrite c7undo0 20 hello).memLog = [.insertE ⟨1, 20⟩] ∧
    ([] : List UndoLogEntry) ≠ [.insertE ⟨1, 20⟩] ∧
    (undoWrite c7undo0 20 hello).store.get 20 = some hello := by decide

/-- C7 (amended): the redo engine's `write(tid, k, v)` is a no-op when
`tid` is not active and otherwise stages `Change{tid, k, v}` (the new
value), records the write in the `Changes` table and updates the store;
the undo engine's `write(k, v)` takes no tid at all — regardless of any
transaction state it stages `Change{last_tid+1, k, old}` when the store
maps `k` to `old` and `Insert{last_tid+1, k}` otherwise, and updates the
store. -/
theorem c7_write_semantics :
    (∀ (s : RedoState) (tid k : Nat) (v : List Nat),
      s.activeTids.contains tid = false → redoWrite s tid k v = s) ∧
    (∀ (s : RedoState) (tid k : Nat) (v : List Nat),
      s.activeTids.contains tid = true →
        redoWrite s tid k v =
          { s with transactionChanges := s.transactionChanges ++ [(tid, k, v)],
                   store := s.store.update k v,
                   memLog := s.memLog ++ [.changeE ⟨tid, k, v⟩] }) ∧
    (∀ (s : UndoState) (k : Nat) (v : List Nat),
      undoWrite s k v =
        { s with store := s.store.update k v,
                 memLog := s.memLog ++
                   [match s.store.get k with
                    | some old => UndoLogEntry.changeE ⟨s.tid + 1, k, old⟩
                    | none => UndoLogEntry.insertE ⟨s.tid + 1, k⟩] }) := by
  refine ⟨fun s tid k v h => ?_, fun s tid k v h => ?_, fun s k v => rfl⟩
  · simp only [redoWrite, h, Bool.false_eq_true, if_false]
  · simp only [redoWrite, h, if_true]

/-- C7 witness: the amended statement evaluated at concrete redo states
with transaction 5 inactive resp. active. -/
theorem c7_write_semantics_witness :
    redoWrite c7redoA 5 20 hello = c7redoA ∧
    redoWrite c7redoB 5 20 hello =
      { c7redoB with
          transactionChanges := c7redoB.transactionChanges ++ [(5, 20, hello)],
          store := c7redoB.store.update 20 hello,
          memLog := c7redoB.memLog ++ [.changeE ⟨5, 20, hello⟩] } :=
  ⟨c7_write_semantics.1 c7redoA 5 20 hello (by decide),
   c7_write_semantics.2.1 c7redoB 5 20 hello (by decide)⟩

/-!  Helper lemmas about chunking and retagging (for C9/C10). -/

theorem chunksOfAux_nil (c fuel : Nat) : chunksOfAux c fuel ([] : List α) = [] := by
  cases fuel <;> rfl

theorem chunksOfAux_flatten {c : Nat} (hc : 0 < c) :
    ∀ (fuel : Nat) (l : List α), l.length ≤ fuel →
      (chunksOfAux c fuel l).flatten = l := by
  intro fuel
  induction fuel with
  | zero =>
    intro l h
    have hl : l = [] := List.length_eq_zero.mp (Nat.le_zero.mp h)
    subst hl; rfl
  | succ n ih =>
    intro l h
    cases l with
    | nil => rfl
    | cons a t =>
      simp only [chunksOfAux]
      rw [if_neg (Nat.pos_iff_ne_zero.mp hc)]
      simp only [List.flatten_cons]
      rw [ih]
      · exact List.take_append_drop c (a :: t)
      · simp only [List.length_cons] at h
        simp only [List.length_drop, List.length_cons]
        omega

theorem chunksOfAux_length_le {c : Nat} :
    ∀ (fuel : Nat) (l : List α), ∀ ch ∈ chunksOfAux c fuel l, ch.length ≤ c := by
  intro fuel
  induction fuel with
  | zero =>
    intro l ch hch
    cases l <;> simp [chunksOfAux] at hch
  | succ n ih =>
    intro l ch hch
    cases l with
    | nil => simp [chunksOfAux] at hch
    | cons a t =>
      simp only [chunksOfAux] at hch
      by_cases hc : c = 0
      · rw [if_pos hc] at hch; simp at hch
      · rw [if_neg hc] at hch
        rcases List.mem_cons.mp hch with h | h
        · subst h; simp [List.length_take]
        · exact ih _ ch h

theorem chunksOfAux_ne_nil {c : Nat} (hc : 0 < c) (fuel : Nat) (l : List α)
    (hne : l ≠ []) (hle : l.length ≤ fuel) : chunksOfAux c fuel l ≠ [] := by
  cases fuel with
  | zero =>
    cases l with
    | nil => exact absurd rfl hne
    | cons a t => simp at hle
  | succ n =>
    cases l with
    | nil => exact absurd rfl hne
    | cons a t =>
      simp only [chunksOfAux]
      rw [if_neg (Nat.pos_iff_ne_zero.mp hc)]
      simp

theorem chunksOf_flatten {c : Nat} (hc : 0 < c) (l : List α) :
    (chunksOf c l).flatten = l :=
  chunksOfAux_flatten hc l.length l le_rfl

theorem chunksOf_single {c : Nat} {l : List α} (hc : 0 < c) (hne : l ≠ [])
    (hle : l.length ≤ c) : chunksOf c l = [l] := by
  cases l with
  | nil => exact absurd rfl hne
  | cons a t =>
    simp only [chunksOf, List.length_cons, chunksOfAux]
    rw [if_neg (Nat.pos_iff_ne_zero.mp hc)]
    rw [List.take_of_length_le hle, List.drop_eq_nil_of_le hle, chunksOfAux_nil]

theorem chunksOf_two_le {c : Nat} {l : List α} (hc : 0 < c)
    (hlt : c < l.length) : 2 ≤ (chunksOf c l).length := by
  cases l with
  | nil => simp at hlt
  | cons a t =>
    simp only [List.length_cons] at hlt
    simp only [chunksOf, List.length_cons, chunksOfAux]
    rw [if_neg (Nat.pos_iff_ne_zero.mp hc)]
    have hne : (a :: t).drop c ≠ [] := by
      intro h
      have := congrArg List.length h
      simp only [List.length_drop, List.length_cons, List.length_nil] at this
      omega
    have hle : ((a :: t).drop c).length ≤ t.length := by
      simp only [List.length_drop, List.length_cons]
      omega
    have := chunksOfAux_ne_nil hc t.length ((a :: t).drop c) hne hle
    simp only [List.length_cons]
    cases hh : chunksOfAux c t.length ((a :: t).drop c) with
    | nil => exact absurd hh this
    | cons x xs => simp

theorem setFirstType_map_payload (t : RecordType) (l : List Record) :
    (setFirstType t l).map Record.payload = l.map Record.payload := by
  cases l <;> rfl

theorem setLastType_map_payload (t : RecordType) (l : List Record) :
    (setLastType t l).map Record.payload = l.map Record.payload := by
  induction l with
  | nil => rfl
  | cons r rs ih =>
    cases rs with
    | nil => rfl
    | cons r2 rs2 =>
      simp only [setLastType, List.map_cons]
      rw [ih]
      simp

theorem setLastType_length (t : RecordType) (l : List Record) :
    (setLastType t l).length = l.length := by
  induction l with
  | nil => rfl
  | cons r rs ih =>
    cases rs with
    | nil => rfl
    | cons r2 rs2 =>
      simp only [setLastType, List.length_cons]
      rw [ih]
      simp

theorem setLastType_map_type_all_middle (l : List Record) (hne : l ≠ [])
    (hall : ∀ x ∈ l, x.record_type = RecordType.Middle) :
    (setLastType .Last l).map Record.record_type =
      List.replicate (l.length - 1) RecordType.Middle ++ [RecordType.Last] := by
  induction l with
  | nil => exact absurd rfl hne
  | cons r rs ih =>
    cases rs with
    | nil => rfl
    | cons r2 rs2 =>
      have h1 : r.record_type = .Middle := hall r (by simp)
      simp only [setLastType, List.map_cons, h1]
      rw [ih (by simp) (fun x hx => hall x (List.mem_cons_of_mem r hx))]
      simp only [List.length_cons, Nat.add_sub_cancel, List.replicate_succ,
        List.cons_append]

theorem mem_setFirstType {t : RecordType} {r : Record} :
    ∀ {l : List Record}, r ∈ setFirstType t l →
      ∃ r0 ∈ l, r.crc = r0.crc ∧ r.size = r0.size ∧ r.payload = r0.payload := by
  intro l hr
  cases l with
  | nil => simp [setFirstType] at hr
  | cons a as =>
    rcases List.mem_cons.mp hr with rfl | h
    · exact ⟨a, by simp, rfl, rfl, rfl⟩
    · exact ⟨r, List.mem_cons_of_mem a h, rfl, rfl, rfl⟩

theorem mem_setLastType {t : RecordType} {r : Record} :
    ∀ {l : List Record}, r ∈ setLastType t l →
      ∃ r0 ∈ l, r.crc = r0.crc ∧ r.size = r0.size ∧ r.payload = r0.payload := by
  intro l
  induction l with
  | nil => intro hr; simp [setLastType] at hr
  | cons a as ih =>
    intro hr
    cases as with
    | nil =>
      rcases List.mem_singleton.mp hr with rfl
      exact ⟨a, by simp, rfl, rfl, rfl⟩
    | cons a2 as2 =>
      rcases List.mem_cons.mp hr with rfl | h
      · exact ⟨r, by simp, rfl, rfl, rfl⟩
      · obtain ⟨r0, hr0, he⟩ := ih h
        exact ⟨r0, List.mem_cons_of_mem a hr0, he⟩

/-!  Helper lemmas about the one-block file `file8` and single iterator
steps (for C8). -/

theorem file8_length : file8.length = 32000 := by
  show (Record.write rec8a ++
    (Record.write rec8b ++ List.replicate 31968 0)).length = 32000
  rw [List.length_append, List.length_append, List.length_replicate,
    show (Record.write rec8a).length = 16 from by decide,
    show (Record.write rec8b).length = 16 from by decide]

theorem file8_parse : parseRecords file8 = [rec8a, rec8b] := by
  have h1 : Record.read file8 =
      some (rec8a, Record.write rec8b ++ List.replicate 31968 0) :=
    Record.read_write rec8a _ (by decide) (by decide) (by decide)
  have h2 : Record.read (Record.write rec8b ++ List.replicate 31968 0) =
      some (rec8b, List.replicate 31968 0) :=
    Record.read_write rec8b _ (by decide) (by decide) (by decide)
  rw [parseRecords_eq_cons h1, parseRecords_eq_cons h2,
    parseRecords_eq_nil (Record.read_replicate_zero _)]

theorem fetch_file8 : fetchBlock file8 0 = some [rec8a, rec8b] := by
  unfold fetchBlock
  rw [if_neg (by decide)]
  have hlen : ¬ (file8.length < Int.toNat 0 + BLOCK_SIZE) := by
    rw [file8_length]
    decide
  rw [if_neg hlen]
  rw [show Int.toNat 0 = 0 from rfl, List.drop_zero,
    List.take_of_length_le (by rw [file8_length]; decide)]
  rw [file8_parse]
  rfl

theorem next_fresh (file : List Nat) (n : Int) (blk : List Record) (r : Record)
    (hb : checkForwardBounds 0 n = false)
    (hf : fetchBlock file 0 = some blk)
    (hr : blk.get? 0 = some r) :
    WalIterator.next file ⟨n, none, none, none⟩ =
      some (some r, ⟨n, some blk, some 1, some 0⟩) := by
  simp only [WalIterator.next, WalIterator.getPos, WalIterator.loadBlock,
    hb, hf, hr, Bool.false_eq_true, if_false, if_true, Int.toNat_zero]
  norm_num

theorem next_inblock (file : List Nat) (it : WalIterator) (blk : List Record)
    (i : Nat) (p : Int) (r : Record)
    (hb : it.block = some blk) (hi : it.blockIndex = some (i : Int))
    (hp : it.pos = some p) (hr : blk.get? i = some r) :
    WalIterator.next file it =
      some (some r, { it with blockIndex := some ((i : Int) + 1) }) := by
  obtain ⟨hlt, -⟩ := List.get?_eq_some.mp hr
  have h1 : ¬ ((i : Int) < 0) := by omega
  have h2 : ¬ ((i : Int) ≥ (blk.length : Int)) := by omega
  simp only [WalIterator.next, WalIterator.getPos, WalIterator.loadBlock,
    hb, hi, hp, h1, h2, if_false, Int.toNat_natCast, hr]

theorem nextBack_inblock (file : List Nat) (it : WalIterator) (blk : List Record)
    (i : Nat) (p : Int) (r : Record)
    (hb : it.block = some blk) (hi : it.blockIndex = some (i : Int))
    (hp : it.pos = some p) (hr : blk.get? i = some r) :
    WalIterator.nextBack file it =
      some (some r, { it with blockIndex := some ((i : Int) - 1) }) := by
  obtain ⟨hlt, -⟩ := List.get?_eq_some.mp hr
  have h1 : ¬ ((i : Int) < 0) := by omega
  have h2 : ¬ ((i : Int) ≥ (blk.length : Int)) := by omega
  simp only [WalIterator.nextBack, WalIterator.getPos, WalIterator.loadBlock,
    hb, hi, hp, h1, h2, if_false, Int.toNat_natCast, hr]

theorem walIterator_new_file8 : WalIterator.new file8 =
    { fileLen := 32000, block := none, blockIndex := none, pos := none } := by
  unfold WalIterator.new
  rw [file8_length]
  rfl

/-- C8 (counterexample): the claim states that after next() returned
rᵢ, an immediate next_back() returns rᵢ itself (the pivot).  The
iterator keeps no direction tag: on a one-block file holding records
`rec8a, rec8b`, the first `next()` returns `rec8a` and leaves the cursor
on index 1, and the immediately following `next_back()` returns `rec8b`
— the record after the pivot — not `rec8a`. -/
theorem c8_pivot_counterexample :
    WalIterator.next file8 (WalIterator.new file8) =
      some (some rec8a, ⟨32000, some [rec8a, rec8b], some 1, some 0⟩) ∧
    WalIterator.nextBack file8 ⟨32000, some [rec8a, rec8b], some 1, some 0⟩ =
      some (some rec8b, ⟨32000, some [rec8a, rec8b], some 0, some 0⟩) ∧
    rec8b ≠ rec8a := by
  refine ⟨?_, ?_, by decide⟩
  · rw [walIterator_new_file8]
    exact next_fresh file8 32000 [rec8a, rec8b] rec8a (by decide) fetch_file8 rfl
  · exact nextBack_inblock file8 ⟨32000, some [rec8a, rec8b], some 1, some 0⟩
      [rec8a, rec8b] 1 0 rec8b rfl rfl rfl rfl

/-- C8 (amended): the iterator keeps no direction tag; `next()` returns
the record at the current cursor and increments it, `next_back()`
returns the record at the current cursor and decrements it.  Hence with
the cursor at `i` inside the loaded block, `next()` yields `rᵢ` and an
immediate `next_back()` yields `rᵢ₊₁` (not the pivot `rᵢ`); after that
`next_back()`, an immediate `next()` yields `rᵢ` again (not `rᵢ₊₁`). -/
theorem c8_cursor_semantics (file : List Nat) (it : WalIterator)
    (blk : List Record) (i : Nat) (p : Int) (ra rb : Record)
    (hb : it.block = some blk) (hi : it.blockIndex = some (i : Int))
    (hp : it.pos = some p)
    (h1 : blk.get? i = some ra) (h2 : blk.get? (i + 1) = some rb) :
    WalIterator.next file it =
      some (some ra, { it with blockIndex := some ((i : Int) + 1) }) ∧
    WalIterator.nextBack file { it with blockIndex := some ((i : Int) + 1) } =
      some (some rb, { it with blockIndex := some (i : Int) }) ∧
    WalIterator.next file { it with blockIndex := some (i : Int) } =
      some (some ra, { it with blockIndex := some ((i : Int) + 1) }) := by
  have hcast : ((i + 1 : Nat) : Int) = (i : Int) + 1 := by push_cast; ring
  refine ⟨next_inblock file it blk i p ra hb hi hp h1, ?_, ?_⟩
  · have := nextBack_inblock file { it with blockIndex := some ((i : Int) + 1) }
      blk (i + 1) p rb (by simp [hb]) (by simp [hcast]) (by simp [hp]) h2
    rw [this]
    have harith : ((i + 1 : Nat) : Int) - 1 = (i : Int) := by push_cast; ring
    rw [harith]
  · exact next_inblock file { it with blockIndex := some (i : Int) }
      blk i p ra (by simp [hb]) (by simp) (by simp [hp]) h1

/-- C8 witness: the amended statement evaluated on a loaded two-record
block with the cursor at index 0. -/
theorem c8_cursor_semantics_witness :
    WalIterator.next [] it8w =
      some (some rec8w1, { it8w with blockIndex := some 1 }) ∧
    WalIterator.nextBack [] { it8w with blockIndex := some 1 } =
      some (some rec8w2, { it8w with blockIndex := some 0 }) ∧
    WalIterator.next [] { it8w with blockIndex := some 0 } =
      some (some rec8w1, { it8w with blockIndex := some 1 }) :=
  c8_cursor_semantics [] it8w [rec8w1, rec8w2] 0 0 rec8w1 rec8w2 rfl rfl rfl
    rfl rfl

/-- C9: `split_bytes_into_records` fragments losslessly — the payloads
concatenate back to the input, every payload is at most the chunk size,
and the tags are a single `Zero` for empty input, a single `Full` when
the input fits in one chunk, and `First`, `Middle*`, `Last` otherwise. -/
theorem c9_fragmentation_roundtrip (B : List Nat) (c : Nat) (hc : 1 ≤ c) :
    ((split_bytes_into_records B c).map Record.payload).flatten = B ∧
    (∀ r ∈ split_bytes_into_records B c, r.payload.length ≤ c) ∧
    (B = [] → (split_bytes_into_records B c).map Record.record_type = [.Zero]) ∧
    (B ≠ [] → B.length ≤ c →
      (split_bytes_into_records B c).map Record.record_type = [.Full]) ∧
    (c < B.length →
      (split_bytes_into_records B c).map Record.record_type =
        .First :: List.replicate ((split_bytes_into_records B c).length - 2)
          .Middle ++ [.Last]) := by
  have hc0 : 0 < c := hc
  by_cases hB : B = []
  · subst hB
    have hsplit : split_bytes_into_records [] c = [⟨0, 0, .Zero, []⟩] := rfl
    rw [hsplit]
    refine ⟨rfl, ?_, fun _ => rfl, fun h _ => absurd rfl h, fun h => by simp at h⟩
    intro r hr
    rcases List.mem_singleton.mp hr with rfl
    simp
  · by_cases hBc : B.length ≤ c
    · have hch : chunksOf c B = [B] := chunksOf_single hc0 hB hBc
      have hsplit : split_bytes_into_records B c =
          [⟨0, B.length % 65536, .Full, B⟩] := by
        simp [split_bytes_into_records, hch, setFirstType]
      rw [hsplit]
      refine ⟨by simp, ?_, fun h => absurd h hB, fun _ _ => rfl, fun h => by omega⟩
      intro r hr
      rcases List.mem_singleton.mp hr with rfl
      simpa using hBc
    · have hlt : c < B.length := by omega
      have h2 : 2 ≤ (chunksOf c B).length := chunksOf_two_le hc0 hlt
      rcases hch : chunksOf c B with _ | ⟨ch1, chtail⟩
      · rw [hch] at h2; simp at h2
      rcases chtail with _ | ⟨ch2, chs⟩
      · rw [hch] at h2; simp at h2
      have hsplit : split_bytes_into_records B c =
          (⟨0, ch1.length % 65536, .First, ch1⟩ : Record) ::
            setLastType .Last
              ((⟨0, ch2.length % 65536, .Middle, ch2⟩ : Record) ::
                chs.map fun chunk =>
                  (⟨0, chunk.length % 65536, .Middle, chunk⟩ : Record)) := by
        simp only [split_bytes_into_records, hch, List.map_cons, List.length_cons]
        rw [if_neg (by simp), if_pos (by omega)]
        rfl
      have hallmid : ∀ x ∈ (⟨0, ch2.length % 65536, .Middle, ch2⟩ : Record) ::
          chs.map (fun chunk =>
            (⟨0, chunk.length % 65536, .Middle, chunk⟩ : Record)),
          x.record_type = RecordType.Middle := by
        intro x hx
        rcases List.mem_cons.mp hx with rfl | hx2
        · rfl
        · obtain ⟨ch, _, rfl⟩ := List.mem_map.mp hx2
          rfl
      have hmpay : (split_bytes_into_records B c).map Record.payload =
          chunksOf c B := by
        rw [hsplit, hch, List.map_cons, setLastType_map_payload]
        simp only [List.map_cons, List.map_map]
        exact congrArg (fun t => ch1 :: ch2 :: t) (List.map_id chs)
      refine ⟨?_, ?_, fun h => absurd h hB, fun _ h => by omega, fun _ => ?_⟩
      · rw [hmpay]
        exact chunksOf_flatten hc0 B
      · intro r hr
        have hm : r.payload ∈ (split_bytes_into_records B c).map Record.payload :=
          List.mem_map_of_mem Record.payload hr
        rw [hmpay] at hm
        exact chunksOfAux_length_le B.length B r.payload hm
      · rw [hsplit, List.map_cons,
          setLastType_map_type_all_middle _ (by simp) hallmid]
        simp only [List.length_cons, List.length_map, setLastType_length,
          Nat.add_sub_cancel]
        rfl

/-- C9 witness: the fragmentation round-trip evaluated at the byte
vector `[1, 2, 3]` with chunk size 2 (two chunks: `First`, `Last`). -/
theorem c9_fragmentation_roundtrip_witness :
    ((split_bytes_into_records [1, 2, 3] 2).map Record.payload).flatten =
      [1, 2, 3] ∧
    (split_bytes_into_records [1, 2, 3] 2).map Record.record_type =
      .First :: List.replicate
        ((split_bytes_into_records [1, 2, 3] 2).length - 2) .Middle ++
        [.Last] :=
  ⟨(c9_fragmentation_roundtrip [1, 2, 3] 2 (by decide)).1,
   (c9_fragmentation_roundtrip [1, 2, 3] 2 (by decide)).2.2.2.2 (by decide)⟩

theorem split_size_truncates (B0 : List Nat) (hlen : B0.length = 65537) :
    (split_bytes_into_records B0 65537).map
      (fun r => (r.crc, r.size, r.payload.length)) = [(0, 1, 65537)] := by
  have hne : B0 ≠ [] := by
    intro h
    rw [h] at hlen
    exact absurd hlen (by decide)
  have hch : chunksOf 65537 B0 = [B0] :=
    chunksOf_single (by norm_num) hne (by omega)
  have hsplit : split_bytes_into_records B0 65537 =
      [⟨0, B0.length % 65536, .Full, B0⟩] := by
    simp only [split_bytes_into_records, hch, List.map_cons, List.map_nil,
      List.length_cons, List.length_nil, Nat.zero_add, setFirstType]
    rw [if_pos trivial]
  rw [hsplit, List.map_cons, List.map_nil, hlen]

/-- C10 (counterexample): the claim states every record's `size` field
equals its payload length for every input and chunk size.  The source
writes `bytes.len() as u16`, which truncates: splitting a 65537-byte
vector with chunk size 65537 yields one `Full` record whose `size` is
1, not 65537 (the crc is 0 as claimed). -/
theorem c10_size_truncated :
    (split_bytes_into_records (List.replicate 65537 0) 65537).map
      (fun r => (r.crc, r.size, r.payload.length)) = [(0, 1, 65537)] ∧
    (1 : Nat) ≠ 65537 :=
  ⟨split_size_truncates (List.replicate 65537 0) (List.length_replicate 65537 0),
   by decide⟩

/-- C10 (amended): every record produced by `split_bytes_into_records`
carries `crc = 0` (no checksum is ever computed — the source has a TODO)
and `size = payload length mod 2^16` (`as u16`); the two agree whenever
the chunk size is below 65536, in particular for the engines'
`MAX_RECORD_SIZE = 1024`. -/
theorem c10_records_have_zero_crc (B : List Nat) (c : Nat) (hc : 1 ≤ c) :
    ∀ r ∈ split_bytes_into_records B c,
      r.crc = 0 ∧ r.size = r.payload.length % 65536 := by
  intro r hr
  have hbase : ∀ x ∈ (chunksOf c B).map (fun chunk =>
      ({ crc := 0, size := chunk.length % 65536, record_type := .Middle,
         payload := chunk } : Record)),
      x.crc = 0 ∧ x.size = x.payload.length % 65536 := by
    intro x hx
    obtain ⟨ch, _, rfl⟩ := List.mem_map.mp hx
    exact ⟨rfl, rfl⟩
  simp only [split_bytes_into_records] at hr
  split at hr
  · obtain ⟨r0, hr0, h1, h2, h3⟩ := mem_setFirstType hr
    obtain ⟨hb1, hb2⟩ := hbase r0 hr0
    rw [h1, h2, h3, hb1, hb2]
    exact ⟨rfl, rfl⟩
  · split at hr
    · obtain ⟨r1, hr1, h1, h2, h3⟩ := mem_setLastType hr
      obtain ⟨r0, hr0, g1, g2, g3⟩ := mem_setFirstType hr1
      obtain ⟨hb1, hb2⟩ := hbase r0 hr0
      rw [h1, h2, h3, g1, g2, g3, hb1, hb2]
      exact ⟨rfl, rfl⟩
    · rcases List.mem_append.mp hr with h | h
      · exact hbase r h
      · rcases List.mem_singleton.mp h with rfl
        exact ⟨rfl, rfl⟩

/-- C10 witness: the amended statement evaluated at the first record of
`split_bytes_into_records [1, 2, 3] 2`. -/
theorem c10_records_have_zero_crc_witness :
    Record.crc ⟨0, 2, .First, [1, 2]⟩ = 0 ∧
    Record.size ⟨0, 2, .First, [1, 2]⟩ =
      (Record.payload ⟨0, 2, .First, [1, 2]⟩).length % 65536 :=
  c10_records_have_zero_crc [1, 2, 3] 2 (by decide) ⟨0, 2, .First, [1, 2]⟩
    (by decide)

end DiskUtils
